import Mathlib

/-!
# Verification of the Hardlink-Manager deduplication core

A shallow embedding of `src/core.py` and the relevant routes of `src/app.py`
(repository `rozza591/Hardlink-Manager`) together with theorems settling the
frozen claims about the scan/link pipeline.

Modelling conventions:

* The filesystem is a static association list `FS` from absolute paths to
  nodes.  A node is either a regular file (with `st_size`, `st_ino`, `st_dev`
  and its byte content) or a symbolic link.  Directories are not modelled:
  the walker model consumes the list of directory entries that
  `os.scandir`/`os.walk` would enumerate, in traversal order.
* `xxhash.xxh64` digests are modelled by an arbitrary function
  `xxh : List Nat → Nat` over file contents; no claim depends on the concrete
  digest.  `calculate_hash` hashes the full content, `calculate_hash` over the
  first 4096 bytes models the quick pre-check helper.
* OS calls behave per their contract over the model filesystem: `os.lstat`
  reads the node stored at the path, `os.remove` deletes the entry,
  `os.link`/`os.symlink` create a new entry.  Per-file `IOError`s that the
  source logs-and-skips correspond to the `none` lookup cases.
* Byte counters are `Nat`; `after_size` is computed in `Int` exactly as the
  Python subtraction `total_bytes_scanned - potential_savings`.
-/

/-- Byte strings (file contents) are lists of byte values. -/
abbrev Bytes := List Nat

/-- A filesystem node as observed by `os.lstat`: a regular file
(`st_size`, `st_ino`, `st_dev`, content) or a symbolic link. -/
inductive FSNode : Type where
  | file (size inode device : Nat) (content : Bytes)
  | symlink (target : String)
deriving DecidableEq, Repr

/-- The model filesystem: directory entries in traversal order. -/
abbrev FS := List (String × FSNode)

/-- Model of os.lstat / entry lookup: the node stored at a path (first match). -/
def lookupFS (fs : FS) (p : String) : Option FSNode :=
  match fs.find? (fun e => e.1 == p) with
  | some e => some e.2
  | none => none

/-- Model of os.path.lexists: the path has an entry (symlinks included, not followed). -/
def lexistsFS (fs : FS) (p : String) : Bool :=
  (lookupFS fs p).isSome

/-- Model of os.path.exists: the path resolves to something (one level of symlink
resolution; the model keeps symlink targets canonical). -/
def existsFS (fs : FS) (p : String) : Bool :=
  match lookupFS fs p with
  | some (.file _ _ _ _) => true
  | some (.symlink t) => (lookupFS fs t).isSome
  | none => false

/-- Model of os.remove: delete the entry at a path. -/
def removeFS (fs : FS) (p : String) : FS :=
  fs.filter (fun e => e.1 != p)

/-- Create (or overwrite) an entry at `p` holding node `n` (used by
`os.link`, `os.symlink` and by the auto-save JSON write, which opens the
target with mode `'w'`). -/
def writeFS (fs : FS) (p : String) (n : FSNode) : FS :=
  removeFS fs p ++ [(p, n)]

/-- The st_ino value as re-read by `os.lstat`/`os.stat` during analysis and
verification (`0` when the path is not a regular file; those branches are
guarded in the source). -/
def statInode (fs : FS) (p : String) : Nat :=
  match lookupFS fs p with
  | some (.file _ i _ _) => i
  | _ => 0

/-- The st_size value as re-read during analysis (os.path.getsize). -/
def statSize (fs : FS) (p : String) : Nat :=
  match lookupFS fs p with
  | some (.file s _ _ _) => s
  | _ => 0

/-- The path currently holds a regular file (`not S_ISLNK` and
`os.path.isfile`), as re-checked by the class analysis loop. -/
def isRegularFile (fs : FS) (p : String) : Bool :=
  match lookupFS fs p with
  | some (.file _ _ _ _) => true
  | _ => false

/-- The code points of a string (Python `str` values are compared and sliced
by code point; the built-in `String` operations are replaced by operations on
these keys so that everything reduces). -/
def pathKey (s : String) : List Nat :=
  s.data.map Char.toNat

/-- Python `str.lower` on the code points (ASCII case fold, which is what the
source's extension filters rely on). -/
def lowerKey (s : String) : List Nat :=
  s.data.map (fun c =>
    let n := c.toNat
    if 65 ≤ n ∧ n ≤ 90 then n + 32 else n)

/-- Python `filepath.split(os.sep)` with `os.sep = "/"` (code point 47), on
code points. -/
def splitParts : List Nat → List (List Nat)
  | [] => [[]]
  | c :: rest =>
      let ps := splitParts rest
      if c = 47 then [] :: ps
      else
        match ps with
        | p :: rest' => (c :: p) :: rest'
        | [] => [[c]]

/-- Model of core.is_ignored(filepath, ignore_dirs, ignore_exts): lowercased-suffix
match against `ignore_exts` (already-cleaned extensions, as code points),
then path components against `ignore_dirs`. -/
def is_ignored (filepath : String) (ignore_dirs : List String)
    (ignore_exts : List (List Nat)) : Bool :=
  if ignore_exts.any (fun ext => ext.isSuffixOf (lowerKey filepath)) then true
  else if (splitParts (pathKey filepath)).any
      (fun part => (ignore_dirs.map pathKey).contains part) then true
  else false

/-- The extension clean-up at `core.py:251`: ensure a leading dot (code point
46), lower-case. -/
def cleanExts (ignore_exts : List String) : List (List Nat) :=
  ignore_exts.map (fun e =>
    match pathKey e with
    | 46 :: _ => lowerKey e
    | _ => 46 :: lowerKey e)

/-- The per-file record appended to `files_by_size` buckets
(`{'path': filepath, 'inode': fileinode}`). -/
structure PInode : Type where
  path : String
  inode : Nat
deriving DecidableEq, Repr

/-- Append a value to the bucket of key `k`, creating the bucket at the end
when absent — the model of insertion into a Python `defaultdict(list)`. -/
def addGroup {κ β : Type} [DecidableEq κ] :
    List (κ × List β) → κ → β → List (κ × List β)
  | [], k, v => [(k, [v])]
  | (k', l) :: rest, k, v =>
      if k' = k then (k', l ++ [v]) :: rest else (k', l) :: addGroup rest k v

/-- Accumulated state of the discovery walk (Phase 1 of
`run_manual_scan_and_link`). -/
structure WalkResult : Type where
  files_by_size : List (Nat × List PInode)
  total_files_found : Nat
  total_bytes_scanned : Nat
deriving DecidableEq, Repr

/-- One directory entry of the walk (`core.py:266-297`): skip ignored
extensions, skip symlinks, accumulate `total_bytes_scanned` and
`total_files_found`, and bucket non-empty files by size. -/
def walkStep (exts : List (List Nat)) (acc : WalkResult) (entry : String × FSNode) :
    WalkResult :=
  if is_ignored entry.1 [] exts then acc
  else
    match entry.2 with
    | .symlink _ => acc
    | .file size inode _ _ =>
        { files_by_size :=
            if size > 0 then addGroup acc.files_by_size size ⟨entry.1, inode⟩
            else acc.files_by_size
          total_files_found := acc.total_files_found + 1
          total_bytes_scanned := acc.total_bytes_scanned + size }

/-- Phase 1: walk all enumerated entries. -/
def walkPhase (exts : List (List Nat)) (entries : FS) : WalkResult :=
  entries.foldl (walkStep exts) ⟨[], 0, 0⟩

/-- The walker candidates as `(path, size, inode)` triples: the entries that
pass the ignore filter, are not symlinks and have non-zero size.  Used to
characterise the size buckets. -/
def walkedCandidates (exts : List (List Nat)) (entries : FS) :
    List (String × Nat × Nat) :=
  entries.filterMap (fun e =>
    if is_ignored e.1 [] exts then none
    else
      match e.2 with
      | .symlink _ => none
      | .file size inode _ _ =>
          if size > 0 then some (e.1, size, inode) else none)

/-- The bucket stored under key `k` (empty when the key is absent). -/
def bucketOf {κ β : Type} [DecidableEq κ] (groups : List (κ × List β)) (k : κ) :
    List β :=
  match groups.find? (fun g => g.1 = k) with
  | some g => g.2
  | none => []

/-- The filter potential_duplicate_sizes (`core.py:305`): only buckets with more than
one file survive. -/
def bucketsWithDupes {κ β : Type} (groups : List (κ × List β)) :
    List (κ × List β) :=
  groups.filter (fun g => g.2.length > 1)

/-- The list files_to_hash_info (`core.py:307`): flatten the surviving buckets. -/
def files_to_hash_info {κ β : Type} (groups : List (κ × List β)) : List β :=
  ((bucketsWithDupes groups).map (fun g => g.2)).flatten

/-- Phase 1.5 (`core.py:310-337`): quick-check hashing.  For each candidate
still present as a regular file, hash its first 4096 bytes and bucket under
`(size, quick_hash)`; unreadable paths are skipped (`calculate_hash` returns
`None` / `os.path.getsize` raises). -/
def quickHashPhase (xxh : Bytes → Nat) (fs : FS) (infos : List PInode) :
    List ((Nat × Nat) × List PInode) :=
  infos.foldl (fun groups info =>
    match lookupFS fs info.path with
    | some (.file size _ _ content) =>
        addGroup groups (size, xxh (content.take 4096)) info
    | _ => groups) []

/-- The enriched per-file record after full hashing (`file_info['hash']`). -/
structure DupRec : Type where
  path : String
  inode : Nat
  hash : Nat
deriving DecidableEq, Repr

/-- Phase 2 (`core.py:339-380`): full-content hashing of the survivors,
bucketed under `(size, full_hash)`, records enriched with the hash. -/
def fullHashPhase (xxh : Bytes → Nat) (fs : FS) (infos : List PInode) :
    List ((Nat × Nat) × List DupRec) :=
  infos.foldl (fun groups info =>
    match lookupFS fs info.path with
    | some (.file size _ _ content) =>
        addGroup groups (size, xxh content) ⟨info.path, info.inode, xxh content⟩
    | _ => groups) []

/-- Phase 3 (`core.py:386`): buckets with more than one file are the raw
duplicate sets. -/
def duplicate_sets_raw {κ β : Type} (groups : List (κ × List β)) :
    List (List β) :=
  (groups.filter (fun g => g.2.length > 1)).map (fun g => g.2)

/-- Lexicographic order on code-point sequences: the order Python uses to
compare `str` values in `sorted(..., key=lambda x: x['path'])`. -/
def lexLe : List Nat → List Nat → Bool
  | [], _ => true
  | _ :: _, [] => false
  | a :: as, b :: bs => if a < b then true else if b < a then false else lexLe as bs

/-- Python `<=` on path strings. -/
def strLe (a b : String) : Bool :=
  lexLe (pathKey a) (pathKey b)

theorem lexLe_total : ∀ x y : List Nat, lexLe x y = true ∨ lexLe y x = true := by
  intro x
  induction x with
  | nil => intro y; left; rfl
  | cons a as ih =>
      intro y
      cases y with
      | nil => right; rfl
      | cons b bs =>
          simp only [lexLe]
          rcases Nat.lt_trichotomy a b with h | h | h
          · left; simp [h]
          · subst h
            have := ih bs
            simpa [Nat.lt_irrefl] using this
          · right; simp [h, Nat.lt_asymm h]

theorem lexLe_trans :
    ∀ x y z : List Nat, lexLe x y = true → lexLe y z = true → lexLe x z = true := by
  intro x
  induction x with
  | nil => intro y z _ _; rfl
  | cons a as ih =>
      intro y z hxy hyz
      cases y with
      | nil => simp [lexLe] at hxy
      | cons b bs =>
          cases z with
          | nil => simp [lexLe] at hyz
          | cons c cs =>
              simp only [lexLe] at hxy hyz ⊢
              rcases Nat.lt_trichotomy a b with hab | hab | hab
              · rcases Nat.lt_trichotomy b c with hbc | hbc | hbc
                · simp [Nat.lt_trans hab hbc]
                · subst hbc; simp [hab]
                · simp [hbc, Nat.lt_asymm hbc] at hyz
              · subst hab
                rcases Nat.lt_trichotomy a c with hac | hac | hac
                · simp [hac]
                · subst hac
                  simp [Nat.lt_irrefl] at hxy hyz ⊢
                  exact ih _ _ hxy hyz
                · simp [hac, Nat.lt_asymm hac] at hyz
              · simp [hab, Nat.lt_asymm hab] at hxy

theorem strLe_total : ∀ x y : String, strLe x y = true ∨ strLe y x = true := by
  intro x y; exact lexLe_total (pathKey x) (pathKey y)

theorem strLe_trans :
    ∀ x y z : String, strLe x y = true → strLe y z = true → strLe x z = true := by
  intro x y z; exact lexLe_trans (pathKey x) (pathKey y) (pathKey z)

/-- A duplicate-set member as shown in the Scan Result: the enriched file
record plus the `already_linked` flag (`core.py:432-439`). -/
structure DisplayRec : Type where
  path : String
  inode : Nat
  hash : Nat
  already_linked : Bool
deriving DecidableEq, Repr

/-- One formatted duplicate set: the leading `size_info` cell (the model keeps
the byte count that `format_bytes` would render) followed by the member
records (`core.py:443`). -/
structure FormattedSet : Type where
  size_bytes : Nat
  members : List DisplayRec
deriving DecidableEq, Repr

/-- Model of sorted(formatted_set_display, key=lambda x: x['path']). -/
def sortMembersByPath (l : List DisplayRec) : List DisplayRec :=
  List.insertionSort (fun a b => strLe a.path b.path = true) l

/-- Model of sorted(s, key=lambda x: x['path']) on a raw duplicate set. -/
def sortDupsByPath (l : List DupRec) : List DupRec :=
  List.insertionSort (fun a b => strLe a.path b.path = true) l

/-- The sort key of `formatted_duplicates.sort` (`core.py:448`): the first
member's path, or `""` for a degenerate set. -/
def firstPathKey (s : FormattedSet) : String :=
  match s.members with
  | m :: _ => m.path
  | [] => ""

/-- Model of formatted_duplicates.sort(key=...). -/
def sortSetsByFirstPath (l : List FormattedSet) : List FormattedSet :=
  List.insertionSort (fun a b => strLe (firstPathKey a) (firstPathKey b) = true) l

/-- All members of a raw set could be `lstat`-ed during analysis; when some
member's path is gone the source's `except OSError` discards the whole set
(`core.py:413-416`). -/
def setStatOk (fs : FS) (set : List DupRec) : Bool :=
  set.all (fun fi => (lookupFS fs fi.path).isSome)

/-- The list valid_files_in_set: the members that are still regular files
(`core.py:402-408`). -/
def validFiles (fs : FS) (set : List DupRec) : List DupRec :=
  set.filter (fun fi => isRegularFile fs fi.path)

/-- The distinct re-stat inodes of the valid members (the Python `set`). -/
def setInodes (fs : FS) (set : List DupRec) : List Nat :=
  ((validFiles fs set).map (fun fi => statInode fs fi.path)).dedup

/-- The filesize variable during analysis: the size of the first valid member with a
non-zero size (the `if filesize == 0` update at `core.py:409`). -/
def setFileSize (fs : FS) (set : List DupRec) : Nat :=
  (validFiles fs set).foldl
    (fun fsz fi => if fsz = 0 then statSize fs fi.path else fsz) 0

/-- Accumulated state of the analysis loop (`core.py:391-443`). -/
structure AnalysisState : Type where
  potential_savings : Nat
  sets_already_linked : Nat
  formatted : List FormattedSet
deriving DecidableEq, Repr

/-- The analysis loop body for one raw duplicate set. -/
def analyzeSet (fs : FS) (st : AnalysisState) (set : List DupRec) :
    AnalysisState :=
  if set.length < 2 then st
  else if setStatOk fs set = false then st
  else
    let valid := validFiles fs set
    if valid.length < 2 then st
    else
      let isAlready := (setInodes fs set).length = 1
      let fsize := setFileSize fs set
      { potential_savings :=
          st.potential_savings + (if isAlready then 0 else fsize * (valid.length - 1))
        sets_already_linked :=
          st.sets_already_linked + (if isAlready then 1 else 0)
        formatted :=
          st.formatted ++
            [⟨fsize,
              sortMembersByPath
                (valid.map (fun fi => ⟨fi.path, fi.inode, fi.hash, isAlready⟩))⟩] }

/-- The whole analysis phase: fold the loop body over the raw sets, then sort
the output list by the first member's path (`core.py:448`). -/
def analyzePhase (fs : FS) (sets : List (List DupRec)) : AnalysisState :=
  let st := sets.foldl (analyzeSet fs) ⟨0, 0, []⟩
  { st with formatted := sortSetsByFirstPath st.formatted }

/-- Link type, 'hard' or 'soft'. -/
inductive LinkType : Type where
  | hard
  | soft
deriving DecidableEq, Repr

/-- Filesystem mutations issued by the pipeline, in order. -/
inductive FSAction : Type where
  | removeAct (p : String)
  | hardlinkAct (orig dup : String)
  | symlinkAct (orig dup : String)
  | writeResultsAct (p : String)
deriving DecidableEq, Repr

/-- Error kinds distinguished by the source's exception handling. -/
inductive ErrKind : Type where
  | fileNotFoundErr
  | osErr
  | valueErr
  | verificationErr
deriving DecidableEq, Repr

/-- Holds for the actions that mutate scanned files (unlink / hard link /
symlink); the auto-save JSON write is not one of them. -/
def FSAction.mutatesFiles : FSAction → Bool
  | .removeAct _ => true
  | .hardlinkAct _ _ => true
  | .symlinkAct _ _ => true
  | .writeResultsAct _ => false

/-- Running state of `perform_linking_logic`. -/
structure LinkState : Type where
  fs : FS
  files_linked : Nat
  files_failed : Nat
  warnings : List String
  pair_errors : List ErrKind
  actions : List FSAction
deriving DecidableEq, Repr

/-- Model of link_function(original_path, duplicate_path) (os.link / os.symlink):
a hard link copies the original's node (same inode), a symlink stores the
original's path as target.  `none` models the `OSError` raised when the
original vanished between the `exists` check and the call. -/
def link_function (lt : LinkType) (fs : FS) (orig dup : String) : Option FS :=
  match lt with
  | .hard =>
      match lookupFS fs orig with
      | some n => some (writeFS fs dup n)
      | none => none
  | .soft => some (writeFS fs dup (.symlink orig))

/-- One `(original, duplicate)` pair of the linking loop
(`core.py:189-211`): fail the pair when the original is gone
(`FileNotFoundError`); otherwise remove the duplicate if it still exists
(warn if not) and create the link; every exception is caught per pair. -/
def linkPair (lt : LinkType) (orig : String) (st : LinkState) (dup : DupRec) :
    LinkState :=
  if existsFS st.fs orig = false then
    { st with
        files_failed := st.files_failed + 1
        pair_errors := st.pair_errors ++ [.fileNotFoundErr] }
  else
    let dupGone := lexistsFS st.fs dup.path = false
    let fs1 := if dupGone then st.fs else removeFS st.fs dup.path
    let acts1 := if dupGone then st.actions else st.actions ++ [.removeAct dup.path]
    match link_function lt fs1 orig dup.path with
    | some fs2 =>
        { fs := fs2
          files_linked := st.files_linked + 1
          files_failed := st.files_failed
          warnings := if dupGone then st.warnings ++ [dup.path] else st.warnings
          pair_errors := st.pair_errors
          actions := acts1 ++
            [match lt with
             | .hard => .hardlinkAct orig dup.path
             | .soft => .symlinkAct orig dup.path] }
    | none =>
        { st with
            fs := fs1
            actions := acts1
            files_failed := st.files_failed + 1
            pair_errors := st.pair_errors ++ [.osErr] }

/-- One duplicate set of the linking loop (`core.py:183-188`): sets with fewer
than two files are skipped; the first file is the original to keep. -/
def linkSet (lt : LinkType) (st : LinkState) (set : List DupRec) : LinkState :=
  if set.length < 2 then st
  else
    match set with
    | [] => st
    | orig :: rest => rest.foldl (linkPair lt orig.path) st

/-- The linking loop from a given running state. -/
def performFrom (lt : LinkType) (st : LinkState) (sets : List (List DupRec)) :
    LinkState :=
  sets.foldl (linkSet lt) st

/-- Model of core.perform_linking_logic: replace each duplicate with a link to its
set's original, counting `files_linked` / `files_failed` per pair. -/
def perform_linking_logic (lt : LinkType) (fs : FS) (sets : List (List DupRec)) :
    LinkState :=
  performFrom lt ⟨fs, 0, 0, [], [], []⟩ sets

/-- The scan summary (`result_data["summary"]`, `core.py:453-465`; the
`action_taken` display string is not modelled). -/
structure ScanSummary : Type where
  scan_path : String
  no_duplicates : Bool
  potential_savings : Nat
  before_size : Nat
  after_size : Int
  files_linked : Nat
  files_failed : Nat
  is_dry_run : Bool
  sets_already_linked : Nat
  total_sets_found : Nat
deriving DecidableEq, Repr

/-- The result_data record as stored in scan_results_managed[scan_id]. -/
structure ScanResultData : Type where
  summary : ScanSummary
  duplicates : List FormattedSet
  error : Option ErrKind
  raw_duplicates : Option (List (List DupRec))
deriving DecidableEq, Repr

/-- What one scan run produces: the stored result, the final filesystem, the
ordered mutation trace and the final progress status string. -/
structure ScanOutcome : Type where
  result : ScanResultData
  fs : FS
  actions : List FSAction
  finalStatus : String
deriving DecidableEq, Repr

/-- The auto-save target `os.path.join(output_dir, f"scan_results_{scan_id}.json")`
(`core.py:122-123`, with `output_dir = path1`). -/
def resultsFilePath (scanId path1 : String) : String :=
  path1 ++ "/scan_results_" ++ scanId ++ ".json"

/-- Model of core.run_manual_scan_and_link: the whole scan pipeline over the model
filesystem.  Phases follow the source: walk and size-bucket, quick hash, full
hash, raw duplicate sets, analysis, optional linking (skipped on dry run),
auto-save of the JSON results file. -/
def run_manual_scan_and_link (scanId path1 : String) (dry_run : Bool)
    (link_type : Option LinkType) (save_automatically : Bool)
    (ignore_exts : List String) (xxh : Bytes → Nat) (fs0 : FS) : ScanOutcome :=
  let exts := cleanExts ignore_exts
  let w := walkPhase exts fs0
  let qgroups := quickHashPhase xxh fs0 (files_to_hash_info w.files_by_size)
  let fgroups := fullHashPhase xxh fs0 (files_to_hash_info qgroups)
  let raw := duplicate_sets_raw fgroups
  let total_sets := raw.length
  let an := analyzePhase fs0 raw
  let after : Int := (w.total_bytes_scanned : Int) - (an.potential_savings : Int)
  let sets_to_link_count := total_sets - an.sets_already_linked
  -- Phase 4 (`core.py:478-494`): linking happens only on a non-dry run with a
  -- link type and sets left to link.
  let linkState :=
    if dry_run = false then
      match link_type with
      | some lt =>
          if sets_to_link_count > 0 then
            let sets_to_link_raw := raw.filter
              (fun s => s.length > 1 ∧ ((s.map (fun fi => fi.inode)).dedup).length > 1)
            some (perform_linking_logic lt fs0 (sets_to_link_raw.map sortDupsByPath))
          else none
      | none => none
    else none
  let fsAfterLink := (linkState.map (fun ls => ls.fs)).getD fs0
  let linked := (linkState.map (fun ls => ls.files_linked)).getD 0
  let failed := (linkState.map (fun ls => ls.files_failed)).getD 0
  let errorOpt : Option ErrKind :=
    if failed > 0 then some .osErr else none
  let summary : ScanSummary :=
    { scan_path := path1
      no_duplicates := total_sets = 0
      potential_savings := an.potential_savings
      before_size := w.total_bytes_scanned
      after_size := after
      files_linked := linked
      files_failed := failed
      is_dry_run := dry_run
      sets_already_linked := an.sets_already_linked
      total_sets_found := total_sets }
  let result : ScanResultData :=
    { summary := summary
      duplicates := an.formatted
      error := errorOpt
      raw_duplicates :=
        if dry_run = true ∧ total_sets > an.sets_already_linked then some raw
        else none }
  let finalStatus := if errorOpt.isSome then "error" else "done"
  -- Auto-save (`core.py:522-525`): only when requested and the scan is done.
  let fsFinal :=
    if save_automatically = true ∧ finalStatus = "done" then
      writeFS fsAfterLink (resultsFilePath scanId path1) (.file 0 0 0 [])
    else fsAfterLink
  let baseActions := (linkState.map (fun ls => ls.actions)).getD []
  let actions :=
    if save_automatically = true ∧ finalStatus = "done" then
      baseActions ++ [.writeResultsAct (resultsFilePath scanId path1)]
    else baseActions
  { result := result, fs := fsFinal, actions := actions, finalStatus := finalStatus }

/-- The final record stored in `link_results_managed[link_op_id]`. -/
structure LinkOpResult : Type where
  files_linked : Nat
  files_failed : Nat
  files_verified : Nat
  verification_failed : Nat
  error : Option ErrKind
deriving DecidableEq, Repr

/-- Verification of one created link (`core.py:595-632`).  Hard: the
duplicate path must hold a regular file sharing the original's inode.  Soft:
it must be a symlink whose (canonical) target is the original. -/
def verifyPair (lt : LinkType) (fs : FS) (origPath : String) (origInode : Nat)
    (dup : DupRec) : Bool :=
  match lt with
  | .hard =>
      match lookupFS fs dup.path with
      | some (.file _ i _ _) => i = origInode
      | _ => false
  | .soft =>
      match lookupFS fs dup.path with
      | some (.symlink t) => t = origPath
      | _ => false

/-- Verification of one set (`core.py:575-637`), accumulating
`(files_verified, verification_failed)`.  A missing original fails every
expected link of the set. -/
def verifySet (lt : LinkType) (fs : FS) (acc : Nat × Nat) (set : List DupRec) :
    Nat × Nat :=
  if set.length < 2 then acc
  else
    match set with
    | [] => acc
    | orig :: rest =>
        if existsFS fs orig.path = false then (acc.1, acc.2 + (set.length - 1))
        else
          rest.foldl
            (fun a d =>
              if verifyPair lt fs orig.path (statInode fs orig.path) d then
                (a.1 + 1, a.2)
              else (a.1, a.2 + 1))
            acc

/-- Model of core.link_process_worker: the background link-and-verify job triggered
by the UI against a retained dry-run result.  Consumes
`raw_duplicates` and clears it in the stored scan result on completion; a
missing scan result or missing raw data raises `ValueError`
(`core.py:546-554`), caught by the outer handler which stores an error
result without touching the scan entry. -/
def link_process_worker (lt : LinkType) (scanRes : Option ScanResultData)
    (fs : FS) : LinkOpResult × Option ScanResultData × FS :=
  match scanRes with
  | none => (⟨0, 0, 0, 0, some .valueErr⟩, none, fs)
  | some r =>
      match r.raw_duplicates with
      | none => (⟨0, 0, 0, 0, some .valueErr⟩, some r, fs)
      | some sets =>
          let sorted_sets := (sets.filter (fun s => s.length > 1)).map sortDupsByPath
          let ls := perform_linking_logic lt fs sorted_sets
          let v := sorted_sets.foldl (verifySet lt ls.fs) (0, 0)
          let err : Option ErrKind :=
            if ls.files_failed > 0 then some .osErr
            else if v.2 > 0 then some .verificationErr
            else none
          let r' := { r with raw_duplicates := none }
          (⟨ls.files_linked, ls.files_failed, v.1, v.2, err⟩, some r', ls.fs)

/-- HTTP-level responses of `app.perform_link_route` that matter here. -/
inductive RouteResponse : Type where
  | started
  | badRequest
  | notFound
deriving DecidableEq, Repr

/-- The sanity checks of `app.perform_link_route` (`app.py:291-314`) before a
link worker is spawned: a valid link type, an existing scan result, a dry-run
scan, retained raw data, and positive potential savings. -/
def perform_link_route (link_type : Option LinkType)
    (scanRes : Option ScanResultData) : RouteResponse :=
  match link_type with
  | none => .badRequest
  | some _ =>
      match scanRes with
      | none => .notFound
      | some r =>
          if r.summary.is_dry_run = false then .badRequest
          else if r.raw_duplicates = none then .badRequest
          else if r.summary.potential_savings ≤ 0 then .badRequest
          else .started

/-! ## Basic filesystem lemmas -/

theorem lookupFS_cons (e : String × FSNode) (rest : FS) (p : String) :
    lookupFS (e :: rest) p = if e.1 = p then some e.2 else lookupFS rest p := by
  by_cases h : e.1 = p
  · simp [lookupFS, List.find?, h]
  · have hb : (e.1 == p) = false := beq_eq_false_iff_ne.mpr h
    simp [lookupFS, List.find?, hb, h]

theorem removeFS_cons (e : String × FSNode) (rest : FS) (q : String) :
    removeFS (e :: rest) q =
      if e.1 = q then removeFS rest q else e :: removeFS rest q := by
  by_cases h : e.1 = q <;> simp [removeFS, List.filter_cons, h]

theorem lookupFS_removeFS (fs : FS) (q p : String) :
    lookupFS (removeFS fs q) p = if p = q then none else lookupFS fs p := by
  induction fs with
  | nil => simp [removeFS, lookupFS]
  | cons e rest ih =>
      rw [removeFS_cons]
      by_cases hq : e.1 = q
      · rw [if_pos hq, ih, lookupFS_cons]
        by_cases hp : p = q
        · simp [hp]
        · have hne : ¬ e.1 = p := by
            rw [hq]; intro h; exact hp h.symm
          simp [hp, hne]
      · rw [if_neg hq, lookupFS_cons, lookupFS_cons, ih]
        by_cases hp : p = q
        · have hne : ¬ e.1 = p := by
            intro h; exact hq (h.trans hp)
          simp [hp, hne, hq]
        · simp [hp]

theorem lookupFS_append_some (l1 l2 : FS) (p : String) (n : FSNode)
    (h : lookupFS l1 p = some n) : lookupFS (l1 ++ l2) p = some n := by
  induction l1 with
  | nil => simp [lookupFS] at h
  | cons e rest ih =>
      rw [List.cons_append, lookupFS_cons]
      rw [lookupFS_cons] at h
      by_cases he : e.1 = p
      · simpa [he] using h
      · rw [if_neg he] at h ⊢
        exact ih h

theorem lookupFS_append_none (l1 l2 : FS) (p : String)
    (h : lookupFS l1 p = none) : lookupFS (l1 ++ l2) p = lookupFS l2 p := by
  induction l1 with
  | nil => simp
  | cons e rest ih =>
      rw [List.cons_append, lookupFS_cons]
      rw [lookupFS_cons] at h
      by_cases he : e.1 = p
      · simp [he] at h
      · rw [if_neg he] at h ⊢
        exact ih h

theorem lookupFS_writeFS (fs : FS) (q : String) (n : FSNode) (p : String) :
    lookupFS (writeFS fs q n) p = if p = q then some n else lookupFS fs p := by
  rw [writeFS]
  by_cases h : p = q
  · rw [lookupFS_append_none _ _ _ (by rw [lookupFS_removeFS]; simp [h])]
    simp [h, lookupFS, List.find?]
  · have hrm : lookupFS (removeFS fs q) p = lookupFS fs p := by
      rw [lookupFS_removeFS, if_neg h]
    by_cases hs : (lookupFS fs p).isSome
    · obtain ⟨m, hm⟩ := Option.isSome_iff_exists.mp hs
      rw [lookupFS_append_some _ _ _ m (hrm.trans hm), if_neg h, hm]
    · have hn : lookupFS fs p = none := Option.not_isSome_iff_eq_none.mp (by simpa using hs)
      rw [lookupFS_append_none _ _ _ (hrm.trans hn), if_neg h, hn]
      have hq : (q == p) = false := beq_eq_false_iff_ne.mpr (fun hqp => h hqp.symm)
      simp [lookupFS, List.find?, hq]

/-! ## Linking loop lemmas -/

theorem linkPair_counts (lt : LinkType) (orig : String) (st : LinkState)
    (dup : DupRec) :
    (linkPair lt orig st dup).files_linked + (linkPair lt orig st dup).files_failed
      = st.files_linked + st.files_failed + 1 := by
  unfold linkPair
  split
  · simp only []
    omega
  · dsimp only
    split
    · simp only []
      omega
    · simp only []
      omega

theorem foldl_linkPair_counts (lt : LinkType) (orig : String) :
    ∀ (rest : List DupRec) (st : LinkState),
      (rest.foldl (linkPair lt orig) st).files_linked
        + (rest.foldl (linkPair lt orig) st).files_failed
        = st.files_linked + st.files_failed + rest.length := by
  intro rest
  induction rest with
  | nil => intro st; simp
  | cons d ds ih =>
      intro st
      simp only [List.foldl_cons, List.length_cons]
      rw [ih, linkPair_counts]
      omega

theorem linkSet_counts (lt : LinkType) (st : LinkState) (set : List DupRec) :
    (linkSet lt st set).files_linked + (linkSet lt st set).files_failed
      = st.files_linked + st.files_failed
        + (if set.length < 2 then 0 else set.length - 1) := by
  cases set with
  | nil => simp [linkSet]
  | cons o rest =>
      by_cases h : rest.length + 1 < 2
      · simp [linkSet, h]
      · simp only [linkSet, List.length_cons, h, if_false]
        rw [foldl_linkPair_counts]
        omega

theorem performFrom_counts (lt : LinkType) :
    ∀ (sets : List (List DupRec)) (st : LinkState),
      (performFrom lt st sets).files_linked + (performFrom lt st sets).files_failed
        = st.files_linked + st.files_failed
          + (sets.map (fun s => if s.length < 2 then 0 else s.length - 1)).sum := by
  intro sets
  induction sets with
  | nil => intro st; simp [performFrom]
  | cons s ss ih =>
      intro st
      simp only [performFrom, List.foldl_cons, List.map_cons, List.sum_cons] at *
      rw [ih, linkSet_counts]
      omega

theorem sum_filter_pairs (sets : List (List DupRec)) :
    ((sets.filter (fun s => 2 ≤ s.length)).map (fun s => s.length - 1)).sum
      = (sets.map (fun s => if s.length < 2 then 0 else s.length - 1)).sum := by
  induction sets with
  | nil => rfl
  | cons s ss ih =>
      by_cases h : 2 ≤ s.length
      · have h' : ¬ s.length < 2 := not_lt.mpr h
        simp [List.filter_cons, h, h', ih]
      · have h' : s.length < 2 := not_le.mp h
        simp [List.filter_cons, h, h', ih]

/-! ## Size-bucket lemmas -/

theorem bucketOf_addGroup {κ β : Type} [DecidableEq κ]
    (gs : List (κ × List β)) (k : κ) (v : β) (k' : κ) :
    bucketOf (addGroup gs k v) k' =
      if k' = k then bucketOf gs k' ++ [v] else bucketOf gs k' := by
  induction gs with
  | nil =>
      by_cases h : k' = k
      · simp [addGroup, bucketOf, List.find?, h]
      · have h2 : ¬ k = k' := fun e => h e.symm
        simp [addGroup, bucketOf, List.find?, h, h2]
  | cons g rest ih =>
      obtain ⟨gk, gl⟩ := g
      by_cases hgk : gk = k
      · by_cases h : k' = k
        · have : gk = k' := hgk.trans h.symm
          simp [addGroup, bucketOf, List.find?, hgk, h, this]
        · have h2 : ¬ gk = k' := fun e => h (e.symm.trans hgk)
          have h3 : ¬ k = k' := fun e => h e.symm
          simp [addGroup, bucketOf, List.find?, hgk, h, h2, h3]
      · by_cases hk' : gk = k'
        · have h : ¬ k' = k := fun e => hgk (hk'.trans e)
          simp [addGroup, bucketOf, List.find?, hgk, hk', h]
        · simp only [addGroup, hgk, if_false]
          have hfind :
              ∀ (tail : List (κ × List β)),
                bucketOf ((gk, gl) :: tail) k' = bucketOf tail k' := by
            intro tail
            simp [bucketOf, List.find?, hk']
          rw [hfind, hfind, ih]

theorem foldl_walkStep_bucket (exts : List (List Nat)) :
    ∀ (entries : FS) (acc : WalkResult) (s : Nat),
      bucketOf ((entries.foldl (walkStep exts) acc).files_by_size) s
        = bucketOf acc.files_by_size s
          ++ ((walkedCandidates exts entries).filter (fun c => c.2.1 = s)).map
              (fun c => ⟨c.1, c.2.2⟩) := by
  intro entries
  induction entries with
  | nil => intro acc s; simp [walkedCandidates]
  | cons e rest ih =>
      intro acc s
      simp only [List.foldl_cons]
      rw [ih]
      by_cases hig : is_ignored e.1 [] exts = true
      · simp [walkStep, hig, walkedCandidates, List.filterMap_cons]
      · have hig' : is_ignored e.1 [] exts = false := by
          simpa using hig
        cases hnode : e.2 with
        | symlink t =>
            simp [walkStep, hig', hnode, walkedCandidates, List.filterMap_cons]
        | file size inode device content =>
            by_cases hsz : size > 0
            · by_cases hs : size = s
              · subst hs
                simp only [walkStep, hig', hnode, Bool.false_eq_true, if_false,
                  hsz, if_pos, walkedCandidates, List.filterMap_cons]
                rw [bucketOf_addGroup]
                simp [List.filter_cons, List.append_assoc]
              · have hs' : ¬ s = size := fun e => hs e.symm
                simp only [walkStep, hig', hnode, Bool.false_eq_true, if_false,
                  hsz, if_pos, walkedCandidates, List.filterMap_cons]
                rw [bucketOf_addGroup]
                simp [List.filter_cons, hs, hs']
            · simp [walkStep, hig', hnode, hsz, walkedCandidates, List.filterMap_cons]

theorem mem_files_to_hash_info {κ β : Type} (groups : List (κ × List β)) (v : β) :
    v ∈ files_to_hash_info groups ↔ ∃ g ∈ groups, g.2.length > 1 ∧ v ∈ g.2 := by
  simp only [files_to_hash_info, bucketsWithDupes, List.mem_flatten, List.mem_map,
    List.mem_filter, decide_eq_true_eq]
  constructor
  · rintro ⟨l, ⟨g, ⟨hg, hlen⟩, rfl⟩, hv⟩
    exact ⟨g, hg, hlen, hv⟩
  · rintro ⟨g, hg, hlen, hv⟩
    exact ⟨g.2, ⟨g, ⟨hg, hlen⟩, rfl⟩, hv⟩

theorem keys_addGroup {κ β : Type} [DecidableEq κ]
    (gs : List (κ × List β)) (k : κ) (v : β) :
    (addGroup gs k v).map Prod.fst =
      if k ∈ gs.map Prod.fst then gs.map Prod.fst
      else gs.map Prod.fst ++ [k] := by
  induction gs with
  | nil => simp [addGroup]
  | cons g rest ih =>
      obtain ⟨gk, gl⟩ := g
      by_cases h : gk = k
      · simp [addGroup, h]
      · have h' : ¬ k = gk := fun e => h e.symm
        by_cases hmem : k ∈ rest.map Prod.fst
        · simp [addGroup, h, ih, hmem, h']
        · simp [addGroup, h, ih, hmem, h']

theorem keysNodup_addGroup {κ β : Type} [DecidableEq κ]
    (gs : List (κ × List β)) (k : κ) (v : β)
    (h : (gs.map Prod.fst).Nodup) : ((addGroup gs k v).map Prod.fst).Nodup := by
  rw [keys_addGroup]
  split
  · exact h
  · next hk => simp [List.nodup_append, h, hk]

theorem walk_keysNodup (exts : List (List Nat)) :
    ∀ (entries : FS) (acc : WalkResult),
      (acc.files_by_size.map Prod.fst).Nodup →
      (((entries.foldl (walkStep exts) acc).files_by_size).map Prod.fst).Nodup := by
  intro entries
  induction entries with
  | nil => intro acc h; exact h
  | cons e rest ih =>
      intro acc h
      simp only [List.foldl_cons]
      apply ih
      unfold walkStep
      split
      · exact h
      · split
        · exact h
        · simp only []
          split
          · exact keysNodup_addGroup _ _ _ h
          · exact h

theorem bucketOf_eq_of_mem {κ β : Type} [DecidableEq κ]
    (gs : List (κ × List β)) (h : (gs.map Prod.fst).Nodup)
    (k : κ) (l : List β) (hmem : (k, l) ∈ gs) : bucketOf gs k = l := by
  induction gs with
  | nil => simp at hmem
  | cons g rest ih =>
      obtain ⟨gk, gl⟩ := g
      rw [List.map_cons] at h
      have hnodup := List.nodup_cons.mp h
      rcases List.mem_cons.mp hmem with heq | hrest
      · cases heq
        simp [bucketOf, List.find?]
      · have hk : ¬ gk = k := by
          intro e
          subst e
          exact hnodup.1 (by simpa using List.mem_map_of_mem Prod.fst hrest)
        rw [show bucketOf ((gk, gl) :: rest) k = bucketOf rest k by
              simp [bucketOf, List.find?, hk]]
        exact ih hnodup.2 hrest

theorem walkedCandidates_paths_sublist (exts : List (List Nat)) (entries : FS) :
    ((walkedCandidates exts entries).map (fun c => c.1)).Sublist
      (entries.map Prod.fst) := by
  induction entries with
  | nil => simp [walkedCandidates]
  | cons e rest ih =>
      simp only [walkedCandidates, List.filterMap_cons, List.map_cons]
      by_cases hig : is_ignored e.1 [] exts = true
      · rw [hig]
        exact List.Sublist.cons e.1 ih
      · have hig' : is_ignored e.1 [] exts = false := by simpa using hig
        rw [hig']
        simp only [Bool.false_eq_true, if_false]
        cases hnode : e.2 with
        | symlink t =>
            exact List.Sublist.cons e.1 ih
        | file size inode device content =>
            by_cases hsz : size > 0
            · simp only [hsz, if_pos, List.map_cons]
              exact List.Sublist.cons₂ e.1 ih
            · simp only [hsz, if_neg, if_false]
              exact List.Sublist.cons e.1 ih

/-! ## Analysis loop lemmas -/

theorem analyzeSet_savings (fs : FS) (st : AnalysisState) (set : List DupRec) :
    (analyzeSet fs st set).potential_savings
      = st.potential_savings +
        (if set.length < 2 then 0
         else if setStatOk fs set = false then 0
         else if (validFiles fs set).length < 2 then 0
         else if (setInodes fs set).length = 1 then 0
         else setFileSize fs set * ((validFiles fs set).length - 1)) := by
  by_cases h1 : set.length < 2
  · simp [analyzeSet, h1]
  · by_cases h2 : setStatOk fs set = false
    · simp [analyzeSet, h1, h2]
    · by_cases h3 : (validFiles fs set).length < 2
      · simp [analyzeSet, h1, h2, h3]
      · by_cases h4 : (setInodes fs set).length = 1
        · simp [analyzeSet, h1, h2, h3, h4]
        · simp [analyzeSet, h1, h2, h3, h4]

theorem analyzeSet_already (fs : FS) (st : AnalysisState) (set : List DupRec) :
    (analyzeSet fs st set).sets_already_linked
      = st.sets_already_linked +
        (if set.length < 2 then 0
         else if setStatOk fs set = false then 0
         else if (validFiles fs set).length < 2 then 0
         else if (setInodes fs set).length = 1 then 1
         else 0) := by
  by_cases h1 : set.length < 2
  · simp [analyzeSet, h1]
  · by_cases h2 : setStatOk fs set = false
    · simp [analyzeSet, h1, h2]
    · by_cases h3 : (validFiles fs set).length < 2
      · simp [analyzeSet, h1, h2, h3]
      · by_cases h4 : (setInodes fs set).length = 1
        · simp [analyzeSet, h1, h2, h3, h4]
        · simp [analyzeSet, h1, h2, h3, h4]

theorem foldl_analyzeSet_savings (fs : FS) :
    ∀ (sets : List (List DupRec)) (st : AnalysisState),
      (sets.foldl (analyzeSet fs) st).potential_savings
        = st.potential_savings +
          (sets.map (fun set =>
            if set.length < 2 then 0
            else if setStatOk fs set = false then 0
            else if (validFiles fs set).length < 2 then 0
            else if (setInodes fs set).length = 1 then 0
            else setFileSize fs set * ((validFiles fs set).length - 1))).sum := by
  intro sets
  induction sets with
  | nil => intro st; simp
  | cons s ss ih =>
      intro st
      simp only [List.foldl_cons, List.map_cons, List.sum_cons]
      rw [ih, analyzeSet_savings]
      omega

theorem foldl_analyzeSet_already (fs : FS) :
    ∀ (sets : List (List DupRec)) (st : AnalysisState),
      (sets.foldl (analyzeSet fs) st).sets_already_linked
        = st.sets_already_linked +
          (sets.map (fun set =>
            if set.length < 2 then 0
            else if setStatOk fs set = false then 0
            else if (validFiles fs set).length < 2 then 0
            else if (setInodes fs set).length = 1 then 1
            else 0)).sum := by
  intro sets
  induction sets with
  | nil => intro st; simp
  | cons s ss ih =>
      intro st
      simp only [List.foldl_cons, List.map_cons, List.sum_cons]
      rw [ih, analyzeSet_already]
      omega

/-! ## Sortedness lemmas -/

theorem lexLe_refl : ∀ x : List Nat, lexLe x x = true := by
  intro x
  induction x with
  | nil => rfl
  | cons a as ih => simp [lexLe, Nat.lt_irrefl, ih]

theorem strLe_refl (s : String) : strLe s s = true :=
  lexLe_refl (pathKey s)

theorem sorted_sortMembersByPath (l : List DisplayRec) :
    List.Sorted (fun a b : DisplayRec => strLe a.path b.path = true)
      (sortMembersByPath l) :=
  @List.sorted_insertionSort DisplayRec
    (fun a b => strLe a.path b.path = true)
    (fun _ _ => Bool.decEq _ _)
    ⟨fun a b => strLe_total a.path b.path⟩
    ⟨fun _ _ _ hab hbc => strLe_trans _ _ _ hab hbc⟩ l

theorem sorted_sortSetsByFirstPath (l : List FormattedSet) :
    List.Sorted (fun a b : FormattedSet =>
        strLe (firstPathKey a) (firstPathKey b) = true)
      (sortSetsByFirstPath l) :=
  @List.sorted_insertionSort FormattedSet
    (fun a b => strLe (firstPathKey a) (firstPathKey b) = true)
    (fun _ _ => Bool.decEq _ _)
    ⟨fun a b => strLe_total (firstPathKey a) (firstPathKey b)⟩
    ⟨fun _ _ _ hab hbc => strLe_trans _ _ _ hab hbc⟩ l

theorem mem_sortMembersByPath (l : List DisplayRec) (m : DisplayRec) :
    m ∈ sortMembersByPath l ↔ m ∈ l :=
  (List.perm_insertionSort _ l).mem_iff

theorem mem_sortSetsByFirstPath (l : List FormattedSet) (s : FormattedSet) :
    s ∈ sortSetsByFirstPath l ↔ s ∈ l :=
  (List.perm_insertionSort _ l).mem_iff

theorem formatted_mem_foldl (fs : FS) :
    ∀ (sets : List (List DupRec)) (st : AnalysisState) (fset : FormattedSet),
      fset ∈ (sets.foldl (analyzeSet fs) st).formatted →
      fset ∈ st.formatted ∨ ∃ l, fset.members = sortMembersByPath l := by
  intro sets
  induction sets with
  | nil => intro st fset h; exact Or.inl h
  | cons s ss ih =>
      intro st fset h
      rcases ih (analyzeSet fs st s) fset (by simpa using h) with hmem | hnew
      · unfold analyzeSet at hmem
        by_cases h1 : s.length < 2
        · simp only [h1, if_pos] at hmem
          exact Or.inl hmem
        · simp only [h1, if_neg, if_false] at hmem
          by_cases h2 : setStatOk fs s = false
          · simp only [h2, if_pos] at hmem
            exact Or.inl hmem
          · simp only [h2, if_neg, if_false] at hmem
            by_cases h3 : (validFiles fs s).length < 2
            · simp only [h3, if_pos] at hmem
              exact Or.inl hmem
            · simp only [h3, if_neg, if_false] at hmem
              rcases List.mem_append.mp hmem with hold | hnew
              · exact Or.inl hold
              · refine Or.inr ⟨?_, ?_⟩
                · exact (validFiles fs s).map
                    (fun fi => ⟨fi.path, fi.inode, fi.hash,
                      (setInodes fs s).length = 1⟩)
                · simpa using (List.mem_singleton.mp hnew) ▸ rfl
      · exact Or.inr hnew

theorem existsFS_isSome (fs : FS) (p : String) (h : existsFS fs p = true) :
    ∃ n, lookupFS fs p = some n := by
  unfold existsFS at h
  cases hl : lookupFS fs p with
  | none => rw [hl] at h; simp at h
  | some n => exact ⟨n, rfl⟩

theorem sorted_head_le (l : List DisplayRec)
    (h : List.Sorted (fun a b : DisplayRec => strLe a.path b.path = true) l)
    (m0 : DisplayRec) (hm0 : l.head? = some m0) :
    ∀ m ∈ l, strLe m0.path m.path = true := by
  cases l with
  | nil => simp at hm0
  | cons a tl =>
      have ha : a = m0 := by simpa using hm0
      subst ha
      intro m hm
      rcases List.mem_cons.mp hm with h' | htl
      · rw [h']; exact strLe_refl _
      · exact List.rel_of_sorted_cons h m htl

/-! ## Claim theorems -/

/-- Claim C10. For any input list of duplicate sets, the summary returned by the
core linking routine (`perform_linking_logic`) satisfies
`files_linked + files_failed = Σ_{|s| ≥ 2} (|s| − 1)`: every attempted
(original, duplicate) pair is counted exactly once, as linked or as failed,
never both or neither. -/
theorem linking_counts_every_pair_once (lt : LinkType) (fs : FS)
    (sets : List (List DupRec)) :
    (perform_linking_logic lt fs sets).files_linked
      + (perform_linking_logic lt fs sets).files_failed
      = ((sets.filter (fun s => 2 ≤ s.length)).map (fun s => s.length - 1)).sum := by
  rw [sum_filter_pairs, perform_linking_logic, performFrom_counts]
  simp

/-- Claim C7. Per-pair semantics of the Linker (`perform_linking_logic`):
(1) a pair whose original no longer exists fails with a `FileNotFoundError`
kind (nothing else changes); (2) if the duplicate no longer exists, a warning
is recorded and the link is still created; (3) each pair is counted exactly
once, in `files_linked` or `files_failed`; (4) an error on one pair never
aborts the processing of the remaining pairs or sets — the loop continues
from whatever state the previous set left. -/
theorem linker_per_pair_semantics :
    (∀ (lt : LinkType) (orig : String) (st : LinkState) (dup : DupRec),
        existsFS st.fs orig = false →
        linkPair lt orig st dup =
          { st with
              files_failed := st.files_failed + 1
              pair_errors := st.pair_errors ++ [.fileNotFoundErr] })
    ∧ (∀ (lt : LinkType) (orig : String) (st : LinkState) (dup : DupRec),
        existsFS st.fs orig = true →
        lexistsFS st.fs dup.path = false →
        (linkPair lt orig st dup).warnings = st.warnings ++ [dup.path]
        ∧ (linkPair lt orig st dup).files_linked = st.files_linked + 1)
    ∧ (∀ (lt : LinkType) (orig : String) (st : LinkState) (dup : DupRec),
        (linkPair lt orig st dup).files_linked + (linkPair lt orig st dup).files_failed
          = st.files_linked + st.files_failed + 1)
    ∧ (∀ (lt : LinkType) (st : LinkState) (s : List DupRec)
        (rest : List (List DupRec)),
        performFrom lt st (s :: rest) = performFrom lt (linkSet lt st s) rest) := by
  refine ⟨?_, ?_, ?_, ?_⟩
  · intro lt orig st dup h
    simp [linkPair, h]
  · intro lt orig st dup h1 h2
    obtain ⟨n, hn⟩ := existsFS_isSome _ _ h1
    cases lt with
    | hard => constructor <;> simp [linkPair, h1, h2, link_function, hn]
    | soft => constructor <;> simp [linkPair, h1, h2, link_function]
  · intro lt orig st dup
    exact linkPair_counts lt orig st dup
  · intro lt st s rest
    rfl

/-- Claim C8. For every completed scan: a duplicate class whose surviving
members all share one inode contributes 0 to `potential_savings` and is
counted in `sets_already_linked`; every other (surviving) class contributes
`size × (members − 1)`; and `after_size = before_size − potential_savings`
exactly.  (A class that can no longer be `lstat`-ed, or keeps fewer than two
surviving members, is discarded: it contributes 0 and is not counted.) -/
theorem scan_savings_accounting (scanId path1 : String) (dry : Bool)
    (lt : Option LinkType) (save : Bool) (exts : List String)
    (xxh : Bytes → Nat) (fs0 : FS) :
    (run_manual_scan_and_link scanId path1 dry lt save exts xxh
        fs0).result.summary.potential_savings
      = ((duplicate_sets_raw (fullHashPhase xxh fs0 (files_to_hash_info
            (quickHashPhase xxh fs0 (files_to_hash_info
              (walkPhase (cleanExts exts) fs0).files_by_size))))).map
          (fun set =>
            if set.length < 2 then 0
            else if setStatOk fs0 set = false then 0
            else if (validFiles fs0 set).length < 2 then 0
            else if (setInodes fs0 set).length = 1 then 0
            else setFileSize fs0 set * ((validFiles fs0 set).length - 1))).sum
    ∧ (run_manual_scan_and_link scanId path1 dry lt save exts xxh
        fs0).result.summary.sets_already_linked
      = ((duplicate_sets_raw (fullHashPhase xxh fs0 (files_to_hash_info
            (quickHashPhase xxh fs0 (files_to_hash_info
              (walkPhase (cleanExts exts) fs0).files_by_size))))).map
          (fun set =>
            if set.length < 2 then 0
            else if setStatOk fs0 set = false then 0
            else if (validFiles fs0 set).length < 2 then 0
            else if (setInodes fs0 set).length = 1 then 1
            else 0)).sum
    ∧ (run_manual_scan_and_link scanId path1 dry lt save exts xxh
        fs0).result.summary.after_size
      = ((run_manual_scan_and_link scanId path1 dry lt save exts xxh
            fs0).result.summary.before_size : Int)
        - ((run_manual_scan_and_link scanId path1 dry lt save exts xxh
            fs0).result.summary.potential_savings : Int) := by
  refine ⟨?_, ?_, ?_⟩
  · have h : (run_manual_scan_and_link scanId path1 dry lt save exts xxh
          fs0).result.summary.potential_savings
        = ((duplicate_sets_raw (fullHashPhase xxh fs0 (files_to_hash_info
            (quickHashPhase xxh fs0 (files_to_hash_info
              (walkPhase (cleanExts exts) fs0).files_by_size))))).foldl
            (analyzeSet fs0) ⟨0, 0, []⟩).potential_savings := rfl
    rw [h, foldl_analyzeSet_savings]
    simp
  · have h : (run_manual_scan_and_link scanId path1 dry lt save exts xxh
          fs0).result.summary.sets_already_linked
        = ((duplicate_sets_raw (fullHashPhase xxh fs0 (files_to_hash_info
            (quickHashPhase xxh fs0 (files_to_hash_info
              (walkPhase (cleanExts exts) fs0).files_by_size))))).foldl
            (analyzeSet fs0) ⟨0, 0, []⟩).sets_already_linked := rfl
    rw [h, foldl_analyzeSet_already]
    simp
  · rfl

/-- Claim C9. In every Scan Result the members of each duplicate set are sorted
by path ascending (so the original — the first member — is the
lexicographically smallest path), and the list of sets is sorted by the path
of each set's first member, making the result reproducible for a fixed
filesystem state. -/
theorem scan_result_ordering (scanId path1 : String) (dry : Bool)
    (lt : Option LinkType) (save : Bool) (exts : List String)
    (xxh : Bytes → Nat) (fs0 : FS) :
    (∀ fset ∈ (run_manual_scan_and_link scanId path1 dry lt save exts xxh
        fs0).result.duplicates,
      List.Sorted (fun a b : DisplayRec => strLe a.path b.path = true)
        fset.members)
    ∧ (∀ fset ∈ (run_manual_scan_and_link scanId path1 dry lt save exts xxh
        fs0).result.duplicates,
        ∀ m0, fset.members.head? = some m0 →
          ∀ m ∈ fset.members, strLe m0.path m.path = true)
    ∧ List.Sorted
        (fun a b : FormattedSet => strLe (firstPathKey a) (firstPathKey b) = true)
        (run_manual_scan_and_link scanId path1 dry lt save exts xxh
          fs0).result.duplicates := by
  have hd : (run_manual_scan_and_link scanId path1 dry lt save exts xxh
        fs0).result.duplicates
      = sortSetsByFirstPath
          (((duplicate_sets_raw (fullHashPhase xxh fs0 (files_to_hash_info
              (quickHashPhase xxh fs0 (files_to_hash_info
                (walkPhase (cleanExts exts) fs0).files_by_size))))).foldl
              (analyzeSet fs0) ⟨0, 0, []⟩).formatted) := rfl
  have hsortedmem :
      ∀ fset ∈ (run_manual_scan_and_link scanId path1 dry lt save exts xxh
          fs0).result.duplicates,
        List.Sorted (fun a b : DisplayRec => strLe a.path b.path = true)
          fset.members := by
    intro fset hf
    rw [hd] at hf
    have hf2 := (mem_sortSetsByFirstPath _ _).mp hf
    rcases formatted_mem_foldl fs0 _ _ _ hf2 with hnil | ⟨l, hl⟩
    · simp at hnil
    · rw [hl]
      exact sorted_sortMembersByPath l
  refine ⟨hsortedmem, ?_, ?_⟩
  · intro fset hf m0 hm0 m hm
    exact sorted_head_le _ (hsortedmem fset hf) m0 hm0 m hm
  · rw [hd]
    exact sorted_sortSetsByFirstPath _

/-- Claim C1. A scan run with `dry_run = true` skips the linking phase
entirely: the action trace contains no unlink, hard-link or symlink call
(at most the auto-save JSON write), and every path that existed before the
scan — in particular every scanned file — still maps to the same node
(existence, inode, content) when the scan completes.  The hypothesis states
that the auto-save file for this freshly generated `scan_id` did not already
exist. -/
theorem dry_run_skips_linking_and_preserves_files (scanId path1 : String)
    (lt : Option LinkType) (save : Bool) (exts : List String)
    (xxh : Bytes → Nat) (fs0 : FS)
    (hfresh : lookupFS fs0 (resultsFilePath scanId path1) = none) :
    (∀ a ∈ (run_manual_scan_and_link scanId path1 true lt save exts xxh
        fs0).actions, a.mutatesFiles = false)
    ∧ (∀ p, (lookupFS fs0 p).isSome = true →
        lookupFS (run_manual_scan_and_link scanId path1 true lt save exts xxh
          fs0).fs p = lookupFS fs0 p) := by
  by_cases hs : save = true
  · subst hs
    constructor
    · intro a ha
      have hact : (run_manual_scan_and_link scanId path1 true lt true exts xxh
          fs0).actions
          = [FSAction.writeResultsAct (resultsFilePath scanId path1)] := rfl
      rw [hact] at ha
      rw [List.mem_singleton.mp ha]
      rfl
    · intro p hp
      have hfs : (run_manual_scan_and_link scanId path1 true lt true exts xxh
          fs0).fs
          = writeFS fs0 (resultsFilePath scanId path1) (.file 0 0 0 []) := rfl
      rw [hfs, lookupFS_writeFS]
      have hne : ¬ p = resultsFilePath scanId path1 := by
        intro he
        rw [he, hfresh] at hp
        simp at hp
      rw [if_neg hne]
  · have hs' : save = false := by simpa using hs
    subst hs'
    constructor
    · intro a ha
      have hact : (run_manual_scan_and_link scanId path1 true lt false exts xxh
          fs0).actions = [] := rfl
      rw [hact] at ha
      simp at ha
    · intro p _
      have hfs : (run_manual_scan_and_link scanId path1 true lt false exts xxh
          fs0).fs = fs0 := rfl
      rw [hfs]

/-- Claim C4, behaviour at the failing input.  The scan pipeline of
`src/core.py` never consults the `cancel_requested` flag that
`app.cancel_scan` records — there is no polling point anywhere in
`run_manual_scan_and_link` — so every scan ends with final status `"done"`
or `"error"`; the `"cancelled"` transition promised by
`app.cancel_scan`'s docstring is unreachable. -/
theorem scan_status_never_cancelled (scanId path1 : String) (dry : Bool)
    (lt : Option LinkType) (save : Bool) (exts : List String)
    (xxh : Bytes → Nat) (fs0 : FS) :
    (run_manual_scan_and_link scanId path1 dry lt save exts xxh
        fs0).finalStatus = "done"
    ∨ (run_manual_scan_and_link scanId path1 dry lt save exts xxh
        fs0).finalStatus = "error" := by
  have h : (run_manual_scan_and_link scanId path1 dry lt save exts xxh
        fs0).finalStatus
      = if (run_manual_scan_and_link scanId path1 dry lt save exts xxh
            fs0).result.error.isSome then "error" else "done" := rfl
  rw [h]
  by_cases he : (run_manual_scan_and_link scanId path1 dry lt save exts xxh
      fs0).result.error.isSome
  · rw [if_pos he]
    exact Or.inr rfl
  · rw [if_neg he]
    exact Or.inl rfl

/-- Claim C2, counterexample.  The walker buckets candidates by size alone —
`st_dev` is never read.  Two equal-size files on different devices
(`st_dev = 0` and `st_dev = 1` below) land in the same bucket, refuting the
claim that files on different devices are never placed in the same bucket. -/
theorem size_only_grouping_counterexample :
    (walkPhase []
      [("/mnt/a/x.bin", .file 7 11 0 [1, 2, 3, 4, 5, 6, 7]),
       ("/mnt/b/y.bin", .file 7 22 1 [1, 2, 3, 4, 5, 6, 7])]).files_by_size
      = [(7, [⟨"/mnt/a/x.bin", 11⟩, ⟨"/mnt/b/y.bin", 22⟩])] := by
  decide

/-- Claim C2, amended.  During a scan, candidate files are grouped by *size
alone* (the device is ignored): the bucket of size `s` consists exactly of
the walked candidates of size `s`, whatever their devices; every bucket of
cardinality 1 is discarded before any hashing (`files_to_hash_info` contains
precisely the members of buckets with more than one file); consequently, on
a filesystem with distinct paths, a size-unique file is never hashed. -/
theorem size_bucket_grouping_amended :
    (∀ (exts : List (List Nat)) (entries : FS) (s : Nat),
        bucketOf ((walkPhase exts entries).files_by_size) s
          = ((walkedCandidates exts entries).filter (fun c => c.2.1 = s)).map
              (fun c => ⟨c.1, c.2.2⟩))
    ∧ (∀ (groups : List (Nat × List PInode)) (v : PInode),
        v ∈ files_to_hash_info groups
          ↔ ∃ g ∈ groups, g.2.length > 1 ∧ v ∈ g.2)
    ∧ (∀ (exts : List (List Nat)) (entries : FS),
        (entries.map Prod.fst).Nodup →
        ∀ (s : Nat) (pi : PInode),
          bucketOf ((walkPhase exts entries).files_by_size) s = [pi] →
          pi ∉ files_to_hash_info (walkPhase exts entries).files_by_size) := by
  have hchar : ∀ (exts : List (List Nat)) (entries : FS) (s : Nat),
      bucketOf ((walkPhase exts entries).files_by_size) s
        = ((walkedCandidates exts entries).filter (fun c => c.2.1 = s)).map
            (fun c => ⟨c.1, c.2.2⟩) := by
    intro exts entries s
    have h := foldl_walkStep_bucket exts entries ⟨[], 0, 0⟩ s
    simpa [walkPhase, bucketOf] using h
  refine ⟨hchar, mem_files_to_hash_info, ?_⟩
  intro exts entries hnodup s pi hbucket hmem
  obtain ⟨g, hgW, hglen, hpig⟩ :=
    (mem_files_to_hash_info ((walkPhase exts entries).files_by_size) pi).mp hmem
  have hkeys : (((walkPhase exts entries).files_by_size).map Prod.fst).Nodup := by
    have h := walk_keysNodup exts entries ⟨[], 0, 0⟩ (by simp)
    simpa [walkPhase] using h
  have hbg : bucketOf ((walkPhase exts entries).files_by_size) g.1 = g.2 :=
    bucketOf_eq_of_mem _ hkeys g.1 g.2 (by simpa using hgW)
  by_cases hgs : g.1 = s
  · rw [hgs, hbucket] at hbg
    rw [← hbg] at hglen
    simp at hglen
  · have hpi1 : pi ∈ ((walkedCandidates exts entries).filter
        (fun c => c.2.1 = g.1)).map (fun c => ⟨c.1, c.2.2⟩) := by
      rw [← hchar exts entries g.1, hbg]
      exact hpig
    have hpi2 : pi ∈ ((walkedCandidates exts entries).filter
        (fun c => c.2.1 = s)).map (fun c => ⟨c.1, c.2.2⟩) := by
      rw [← hchar exts entries s, hbucket]
      exact List.mem_singleton_self pi
    obtain ⟨c1, hc1f, hc1e⟩ := List.mem_map.mp hpi1
    obtain ⟨c2, hc2f, hc2e⟩ := List.mem_map.mp hpi2
    have hc1 := List.mem_filter.mp hc1f
    have hc2 := List.mem_filter.mp hc2f
    have hpaths : ((walkedCandidates exts entries).map (fun c => c.1)).Nodup :=
      List.Nodup.sublist (walkedCandidates_paths_sublist exts entries) hnodup
    have heq : c1 = c2 := by
      refine List.inj_on_of_nodup_map hpaths hc1.1 hc2.1 ?_
      have e1 : c1.1 = pi.path := congrArg PInode.path hc1e
      have e2 : c2.1 = pi.path := congrArg PInode.path hc2e
      rw [e1, e2]
    have hss : g.1 = s := by
      have d1 : c1.2.1 = g.1 := of_decide_eq_true hc1.2
      have d2 : c2.2.1 = s := of_decide_eq_true hc2.2
      rw [← d1, heq, d2]
    exact hgs hss

/-- Claim C3, behaviour at the failing input.  The walker in `src/core.py` has
no `min_file_size` parameter at all — `app.py` and the repository's own tests
pass one, which the source function cannot even accept — and its only size
filter is `filesize > 0`.  Below, a 5-byte file (far below any requested
floor such as 10 bytes) is still collected as a duplicate candidate; only
the zero-byte file is dropped from the buckets, while both files are counted
in `total_files_found`. -/
theorem walker_has_no_min_size_floor :
    (walkPhase []
      [("/r/small.bin", .file 5 1 0 [1, 2, 3, 4, 5]),
       ("/r/empty.bin", .file 0 2 0 [])])
      = ⟨[(5, [⟨"/r/small.bin", 1⟩])], 2, 5⟩ := by
  decide

/-- A dry-run filesystem with two linkable duplicate sets, used to exercise
the UI-triggered link worker. -/
def demoLinkFS : FS :=
  [("/d/a1", .file 3 1 0 [9, 9, 9]), ("/d/a2", .file 3 2 0 [9, 9, 9]),
   ("/d/b1", .file 4 3 0 [8, 8, 8, 8]), ("/d/b2", .file 4 4 0 [8, 8, 8, 8])]

/-- The stored result of a dry-run scan of `demoLinkFS` that retained two raw
duplicate classes. -/
def demoDryScan : ScanResultData :=
  { summary :=
      { scan_path := "/d", no_duplicates := false, potential_savings := 7,
        before_size := 14, after_size := 7, files_linked := 0,
        files_failed := 0, is_dry_run := true, sets_already_linked := 0,
        total_sets_found := 2 }
    duplicates := []
    error := none
    raw_duplicates := some
      [[⟨"/d/a1", 1, 101⟩, ⟨"/d/a2", 2, 101⟩],
       [⟨"/d/b1", 3, 102⟩, ⟨"/d/b2", 4, 102⟩]] }

/-- Claim C5, behaviour at the failing input.  `src/core.py`'s
`link_process_worker` has no `selected_indices` parameter — `app.py` parses
the field and passes it to the worker, whose source definition cannot accept
it — and links every retained raw set unconditionally.  Against a dry-run
scan with two linkable classes, a request selecting only class index 0
should create exactly one link; the worker creates links for both classes
(and verifies both). -/
theorem link_worker_links_every_set :
    (link_process_worker .hard (some demoDryScan) demoLinkFS).1.files_linked = 2
    ∧ (link_process_worker .hard (some demoDryScan) demoLinkFS).1.files_failed = 0
    ∧ (link_process_worker .hard (some demoDryScan) demoLinkFS).1.files_verified = 2 := by
  decide

/-- Claim C6. A link operation against a dry-run scan consumes the retained raw
equivalence classes and clears them when it completes: the stored scan
result afterwards has `raw_duplicates = none`; a second worker invocation on
the same scan fails with the source's invariant-violation signal
(`ValueError`: "raw_duplicates missing … Maybe linking already attempted?"),
links nothing and leaves the filesystem untouched; and the
`/perform_link` route rejects the second request with a 400 response. -/
theorem link_consumes_and_clears_raw (lt lt2 : LinkType) (r : ScanResultData)
    (fs : FS) (sets : List (List DupRec))
    (hraw : r.raw_duplicates = some sets) :
    (link_process_worker lt (some r) fs).2.1
      = some { r with raw_duplicates := none }
    ∧ (link_process_worker lt2 ((link_process_worker lt (some r) fs).2.1)
        ((link_process_worker lt (some r) fs).2.2)).1.error
      = some .valueErr
    ∧ (link_process_worker lt2 ((link_process_worker lt (some r) fs).2.1)
        ((link_process_worker lt (some r) fs).2.2)).1.files_linked = 0
    ∧ (link_process_worker lt2 ((link_process_worker lt (some r) fs).2.1)
        ((link_process_worker lt (some r) fs).2.2)).2.2
      = (link_process_worker lt (some r) fs).2.2
    ∧ ∀ lt3 : LinkType,
        perform_link_route (some lt3) ((link_process_worker lt (some r) fs).2.1)
          = .badRequest := by
  have hfirst : (link_process_worker lt (some r) fs).2.1
      = some { r with raw_duplicates := none } := by
    simp [link_process_worker, hraw]
  refine ⟨hfirst, ?_, ?_, ?_, ?_⟩
  · rw [hfirst]; rfl
  · rw [hfirst]; rfl
  · rw [hfirst]; rfl
  · intro lt3
    rw [hfirst]
    by_cases hd :
        ({ r with raw_duplicates := none } : ScanResultData).summary.is_dry_run = false
    · simp [perform_link_route, hd]
    · simp [perform_link_route, hd]

/-! ## Concrete inputs for the witnesses -/

/-- A concrete stand-in for the 64-bit xxhash digest. -/
def demoHash : Bytes → Nat := fun l => l.foldl (fun a b => a * 257 + b + 1) 7

/-- A small filesystem with one duplicate pair and one size-unique file. -/
def demoScanFS : FS :=
  [("/d/a.txt", .file 5 1 0 [104, 101, 108, 108, 111]),
   ("/d/b.txt", .file 5 2 0 [104, 101, 108, 108, 111]),
   ("/d/c.txt", .file 3 3 0 [104, 105, 33])]

/-- A one-file filesystem holding only a link original. -/
def demoPairFS : FS := [("/x", .file 1 7 0 [9])]

/-- Witness for the dry-run frame property at a concrete scan. -/
theorem dry_run_skips_linking_and_preserves_files_witness :
    lookupFS demoScanFS (resultsFilePath "scan1" "/d") = none
    ∧ ((∀ a ∈ (run_manual_scan_and_link "scan1" "/d" true none true [] demoHash
          demoScanFS).actions, a.mutatesFiles = false)
      ∧ (∀ p, (lookupFS demoScanFS p).isSome = true →
          lookupFS (run_manual_scan_and_link "scan1" "/d" true none true []
            demoHash demoScanFS).fs p = lookupFS demoScanFS p)) :=
  ⟨by decide,
   dry_run_skips_linking_and_preserves_files "scan1" "/d" none true [] demoHash
     demoScanFS (by decide)⟩

/-- Witness for the amended grouping claim at a concrete scan: the size-3
bucket of `demoScanFS` is a singleton and its member is not hashed. -/
theorem size_bucket_grouping_amended_witness :
    (demoScanFS.map Prod.fst).Nodup
    ∧ bucketOf ((walkPhase [] demoScanFS).files_by_size) 3 = [⟨"/d/c.txt", 3⟩]
    ∧ (⟨"/d/c.txt", 3⟩ : PInode)
        ∉ files_to_hash_info (walkPhase [] demoScanFS).files_by_size :=
  ⟨by decide, by decide,
   size_bucket_grouping_amended.2.2 [] demoScanFS (by decide) 3 ⟨"/d/c.txt", 3⟩
     (by decide)⟩

/-- Witness for the link-consume-and-clear claim at a concrete dry-run scan. -/
theorem link_consumes_and_clears_raw_witness :
    demoDryScan.raw_duplicates = some
        [[⟨"/d/a1", 1, 101⟩, ⟨"/d/a2", 2, 101⟩],
         [⟨"/d/b1", 3, 102⟩, ⟨"/d/b2", 4, 102⟩]]
    ∧ ((link_process_worker .hard (some demoDryScan) demoLinkFS).2.1
        = some { demoDryScan with raw_duplicates := none }
      ∧ (link_process_worker .hard
          ((link_process_worker .hard (some demoDryScan) demoLinkFS).2.1)
          ((link_process_worker .hard (some demoDryScan) demoLinkFS).2.2)).1.error
        = some .valueErr
      ∧ (link_process_worker .hard
          ((link_process_worker .hard (some demoDryScan) demoLinkFS).2.1)
          ((link_process_worker .hard (some demoDryScan) demoLinkFS).2.2)).1.files_linked
        = 0
      ∧ (link_process_worker .hard
          ((link_process_worker .hard (some demoDryScan) demoLinkFS).2.1)
          ((link_process_worker .hard (some demoDryScan) demoLinkFS).2.2)).2.2
        = (link_process_worker .hard (some demoDryScan) demoLinkFS).2.2
      ∧ ∀ lt3 : LinkType,
          perform_link_route (some lt3)
            ((link_process_worker .hard (some demoDryScan) demoLinkFS).2.1)
            = .badRequest) :=
  ⟨rfl,
   link_consumes_and_clears_raw .hard .hard demoDryScan demoLinkFS
     [[⟨"/d/a1", 1, 101⟩, ⟨"/d/a2", 2, 101⟩],
      [⟨"/d/b1", 3, 102⟩, ⟨"/d/b2", 4, 102⟩]] rfl⟩

/-- Witness for the per-pair Linker semantics at concrete pairs. -/
theorem linker_per_pair_semantics_witness :
    existsFS ([] : FS) "/x" = false
    ∧ linkPair .hard "/x" ⟨[], 0, 0, [], [], []⟩ ⟨"/y", 5, 1⟩
        = { (⟨[], 0, 0, [], [], []⟩ : LinkState) with
              files_failed := (⟨[], 0, 0, [], [], []⟩ : LinkState).files_failed + 1
              pair_errors :=
                (⟨[], 0, 0, [], [], []⟩ : LinkState).pair_errors
                  ++ [.fileNotFoundErr] }
    ∧ existsFS demoPairFS "/x" = true
    ∧ lexistsFS demoPairFS "/y" = false
    ∧ (linkPair .soft "/x" ⟨demoPairFS, 0, 0, [], [], []⟩ ⟨"/y", 5, 1⟩).warnings
        = [] ++ ["/y"]
    ∧ (linkPair .soft "/x" ⟨demoPairFS, 0, 0, [], [], []⟩ ⟨"/y", 5, 1⟩).files_linked
        = 0 + 1
    ∧ (linkPair .hard "/x" ⟨demoPairFS, 0, 0, [], [], []⟩ ⟨"/y", 5, 1⟩).files_linked
        + (linkPair .hard "/x" ⟨demoPairFS, 0, 0, [], [], []⟩ ⟨"/y", 5, 1⟩).files_failed
        = 0 + 0 + 1
    ∧ performFrom .hard ⟨demoPairFS, 0, 0, [], [], []⟩
        ([⟨"/x", 7, 3⟩, ⟨"/y", 5, 3⟩] :: [])
        = performFrom .hard
            (linkSet .hard ⟨demoPairFS, 0, 0, [], [], []⟩
              [⟨"/x", 7, 3⟩, ⟨"/y", 5, 3⟩]) [] := by
  have hb := linker_per_pair_semantics.2.1 .soft "/x"
    ⟨demoPairFS, 0, 0, [], [], []⟩ ⟨"/y", 5, 1⟩ (by decide) (by decide)
  exact ⟨by decide,
    linker_per_pair_semantics.1 .hard "/x" ⟨[], 0, 0, [], [], []⟩ ⟨"/y", 5, 1⟩
      (by decide),
    by decide, by decide, hb.1, hb.2,
    linker_per_pair_semantics.2.2.1 .hard "/x" ⟨demoPairFS, 0, 0, [], [], []⟩
      ⟨"/y", 5, 1⟩,
    linker_per_pair_semantics.2.2.2 .hard ⟨demoPairFS, 0, 0, [], [], []⟩
      [⟨"/x", 7, 3⟩, ⟨"/y", 5, 3⟩] []⟩

/-- Witness for the ordering claim at a concrete scan with one duplicate
set. -/
theorem scan_result_ordering_witness :
    (⟨5, [⟨"/d/a.txt", 1, demoHash [104, 101, 108, 108, 111], false⟩,
          ⟨"/d/b.txt", 2, demoHash [104, 101, 108, 108, 111], false⟩]⟩ : FormattedSet)
        ∈ (run_manual_scan_and_link "scan1" "/d" true none false [] demoHash
            demoScanFS).result.duplicates
    ∧ List.Sorted (fun a b : DisplayRec => strLe a.path b.path = true)
        [⟨"/d/a.txt", 1, demoHash [104, 101, 108, 108, 111], false⟩,
         ⟨"/d/b.txt", 2, demoHash [104, 101, 108, 108, 111], false⟩] :=
  ⟨by decide,
   (scan_result_ordering "scan1" "/d" true none false [] demoHash demoScanFS).1
     ⟨5, [⟨"/d/a.txt", 1, demoHash [104, 101, 108, 108, 111], false⟩,
          ⟨"/d/b.txt", 2, demoHash [104, 101, 108, 108, 111], false⟩]⟩
     (by decide)⟩
